import Mathlib

/-!
Verification development for the `claude-coord` advisory file-lock coordination
engine (`internal/lock/lock.go`, `internal/agent/agent.go`,
`internal/config/config.go`).

The Go code keeps one JSON lock record per protected resource pattern in a
shared directory (`<coord>/locks/<encoded>.lock`) and one heartbeat record per
agent (`<coord>/agents/<id>.agent`).  We embed that state shallowly:

* the lock store is an association list from encoded file name to parsed lock
  record (`Store`); the real directory holds at most one file per name, which
  the embedding mirrors by looking up the first entry with a given key;
* timestamps are integers counting nanoseconds (Go `time.Time` / `time.Duration`
  arithmetic at nanosecond resolution; a duration of `s` seconds is
  `s * nsPerSec`);
* the agent registry is read by `IsStale` only through `os.Stat(...).ModTime()`
  of the heartbeat file, so it is embedded as a lookup function
  `String → Option Int` from the raw agent id to the modification time;
* fallible I/O that cannot fail in a single-process run of the embedded state
  (reading a file that the same step just found, removing a file that is
  present) is modelled as succeeding, matching the sequential execution of the
  Go code on a private store.
-/

namespace Coord

/-- Nanoseconds per second: Go's `time.Second` as an integer duration. -/
def nsPerSec : Int := 1000000000

/-- Go `strings.ReplaceAll(s, old, new)` restricted to one-character `old` and
`new`, where it rewrites every occurrence of the character independently. -/
def replaceAllChar (old new : Char) : List Char → List Char
  | [] => []
  | c :: cs => (if c = old then new else c) :: replaceAllChar old new cs

/-- Embeds `Manager.lockPath` (lock.go lines 309-316) restricted to the encoded
file name: `/` and `\` become `-`, then `*` and `?` become `_`, applied in the
source's order.  The surrounding directory and the `.lock` extension are fixed
affixes and are dropped from the embedding. -/
def lockKey (resource : String) : String :=
  ⟨replaceAllChar '?' '_' (replaceAllChar '*' '_'
    (replaceAllChar '\\' '-' (replaceAllChar '/' '-' resource.data)))⟩

/-- Embeds `Manager.agentPath` (agent.go lines 201-206) restricted to the
encoded file name: only `/` and `\` are replaced (by `-`); the glob
metacharacters `*` and `?` are left untouched by the source. -/
def agentKey (id : String) : String :=
  ⟨replaceAllChar '\\' '-' (replaceAllChar '/' '-' id.data)⟩

/-- Modelled from the spec: the per-segment part of the external
`doublestar.Match` glob dialect — `*` matches any (possibly empty) run of
characters within one path segment, `?` matches exactly one character, any
other character matches itself.  The fuel argument makes the recursion
structural; every recursive call shrinks `pattern.length + candidate.length`,
so the initial fuel chosen by `segMatch` is never exhausted. -/
def segMatchF : Nat → List Char → List Char → Bool
  | 0, _, _ => false
  | fuel+1, ps, cs =>
    match ps, cs with
    | [], [] => true
    | [], _ :: _ => false
    | p :: ps', [] => p = '*' && segMatchF fuel ps' []
    | p :: ps', c :: cs' =>
      if p = '*' then segMatchF fuel ps' (c :: cs') || segMatchF fuel ps cs'
      else (p = '?' || p = c) && segMatchF fuel ps' cs'

/-- One-segment glob match with sufficient fuel. -/
def segMatch (ps cs : List Char) : Bool := segMatchF (ps.length + cs.length + 1) ps cs

/-- Go `strings.Split(s, "/")` on character lists: always returns at least one
(possibly empty) segment. -/
def splitOnSlash : List Char → List (List Char)
  | [] => [[]]
  | c :: rest =>
    match splitOnSlash rest with
    | [] => [[c]]
    | seg :: segs => if c = '/' then [] :: seg :: segs else (c :: seg) :: segs

/-- Modelled from the spec: the cross-segment part of the external
`doublestar.Match` dialect — a pattern segment consisting of exactly `**`
matches zero or more whole path segments; every other pattern segment must
match exactly one path segment via `segMatch`.  Fuelled like `segMatchF`;
every call shrinks the total number of remaining segments. -/
def pathMatchF : Nat → List (List Char) → List (List Char) → Bool
  | 0, _, _ => false
  | fuel+1, ps, ss =>
    match ps with
    | [] => ss.isEmpty
    | p :: ps' =>
      if p = ['*', '*'] then
        pathMatchF fuel ps' ss ||
          (match ss with
           | [] => false
           | _ :: ss' => pathMatchF fuel (p :: ps') ss')
      else
        match ss with
        | [] => false
        | s :: ss' => segMatch p s && pathMatchF fuel ps' ss'

/-- Modelled from the spec: scans for the `}` that closes an already-opened
brace list of the `doublestar` dialect, tracking the nesting depth of inner
`{`/`}` pairs; returns the characters of the list body and the characters
after the closing brace, or `none` when the opening brace is unmatched. -/
def findCloseBrace (depth : Nat) : List Char → Option (List Char × List Char)
  | [] => none
  | c :: rest =>
    if c = '}' then
      if depth = 0 then some ([], rest)
      else
        match findCloseBrace (depth - 1) rest with
        | none => none
        | some (inside, suf) => some (c :: inside, suf)
    else
      match findCloseBrace (if c = '{' then depth + 1 else depth) rest with
      | none => none
      | some (inside, suf) => some (c :: inside, suf)

/-- Modelled from the spec: splits the body of a brace list on its top-level
commas, leaving the commas of nested brace lists in place. -/
def splitAlternativesAux (depth : Nat) : List Char → List (List Char)
  | [] => [[]]
  | c :: rest =>
    if c = ',' ∧ depth = 0 then [] :: splitAlternativesAux depth rest
    else
      match splitAlternativesAux
          (if c = '{' then depth + 1 else if c = '}' then depth - 1 else depth)
          rest with
      | [] => [[c]]
      | g :: gs => (c :: g) :: gs

/-- Modelled from the spec: splits a pattern at its first (matched) brace
list into the prefix before the `{`, the list body and the suffix after the
`}`; `none` when the pattern contains no matched brace list. -/
def splitFirstBrace : List Char → Option (List Char × List Char × List Char)
  | [] => none
  | c :: rest =>
    if c = '{' then
      match findCloseBrace 0 rest with
      | none => none
      | some (inside, suf) => some ([], inside, suf)
    else
      match splitFirstBrace rest with
      | none => none
      | some (pre, inside, suf) => some (c :: pre, inside, suf)

/-- Modelled from the spec: brace lists `{a,b}` expand alternatives — the
pattern is rewritten into the brace-free patterns obtained by substituting
each top-level alternative of its first brace list in turn, recursively for
nested or repeated brace lists; a pattern with no matched brace list expands
to itself.  Each expansion step removes one matched `{`/`}` pair, so the
pattern strictly shrinks and the fuel chosen by `globMatch` is never
exhausted. -/
def braceExpandF : Nat → List Char → List (List Char)
  | 0, s => [s]
  | fuel+1, s =>
    match splitFirstBrace s with
    | none => [s]
    | some (pre, inside, suf) =>
      (splitAlternativesAux 0 inside).flatMap fun alt =>
        braceExpandF fuel (pre ++ alt ++ suf)

/-- Modelled from the spec: `doublestar.Match(pattern, path)` for the
well-formed patterns this configuration dialect uses (`*`, `?`, `**`, brace
lists `{a,b}`, literals).  The pattern's brace lists are expanded into their
alternatives first — expansion precedes the split into segments, so an
alternative may itself span path separators — and the path matches when some
expansion matches it segment-wise.  The Go call can also report
`ErrBadPattern` for malformed patterns; the embedding treats every pattern as
well-formed (an unmatched brace is kept as a literal character), which covers
all patterns appearing in the claims. -/
def globMatch (pattern path : String) : Bool :=
  let ss := splitOnSlash path.data
  (braceExpandF (pattern.data.length + 1) pattern.data).any fun p =>
    let ps := splitOnSlash p
    pathMatchF (ps.length + ss.length + 1) ps ss

/-- One entry of `config.Config.Protected` (config.go lines 29-33); the
`name`/`description` fields play no role in matching and are dropped. -/
structure ProtectedPath where
  pattern : String
deriving DecidableEq

/-- Embeds the first loop of `Manager.Check` (lock.go lines 237-247): walk the
configured patterns in order and return the first whose glob matches the file
path, or `none` when the file is unprotected. -/
def resolvePattern : List ProtectedPath → String → Option String
  | [], _ => none
  | p :: ps, file => if globMatch p.pattern file then some p.pattern else resolvePattern ps file

/-- Embeds the `Lock` record (lock.go lines 16-24).  `acquiredAt` is a
nanosecond timestamp; `ttlSeconds` is kept in seconds as in the source. -/
structure Lock where
  resource : String
  agentID : String
  agentName : String
  operation : String
  acquiredAt : Int
  ttlSeconds : Int
  pid : Int
deriving DecidableEq

/-- Ambient state of one `Manager` invocation: the current wall-clock time and
process id, the loaded settings (`config.Settings`), the heartbeat-file
modification times keyed by raw agent id (what `IsStale` reads via
`os.Stat`), and the configured protected patterns. -/
structure Env where
  now : Int
  pid : Int
  defaultTTL : Int
  staleThreshold : Int
  hb : String → Option Int
  patterns : List ProtectedPath

/-- The locks directory: encoded file name paired with the parsed record. -/
abbrev Store := List (String × Lock)

/-- Reads the file with the given encoded name, if present.  The real
directory holds at most one file per name, so taking the first entry agrees
with it. -/
def lookupStore : Store → String → Option Lock
  | [], _ => none
  | e :: rest, k => if e.1 = k then some e.2 else lookupStore rest k

/-- Creates the file with the given name and content (`O_CREAT|O_EXCL` success
path followed by the payload write). -/
def insertStore (st : Store) (k : String) (l : Lock) : Store := (k, l) :: st

/-- Removes the file with the given name (`os.Remove`). -/
def eraseStore : Store → String → Store
  | [], _ => []
  | e :: rest, k => if e.1 = k then eraseStore rest k else e :: eraseStore rest k

/-- Embeds `Manager.List` (lock.go lines 153-183): the parsed records of every
lock file currently in the directory. -/
def listLocks (st : Store) : List Lock := st.map Prod.snd

/-- Embeds `Manager.Read` (lock.go lines 137-150): read and parse the lock
file for a resource. -/
def ReadLock (st : Store) (resource : String) : Option Lock :=
  lookupStore st (lockKey resource)

/-- Embeds `Manager.IsStale` (lock.go lines 186-209): first the TTL check
against `acquired_at`, then — only when the TTL has not been exceeded — the
heartbeat check, where a missing heartbeat file falls back to comparing the
lock's age against the stale threshold and an existing one compares the
file's modification time against it. -/
def IsStale (env : Env) (l : Lock) : Bool :=
  if env.now - l.acquiredAt > l.ttlSeconds * nsPerSec then true
  else
    match env.hb l.agentID with
    | none => decide (env.now - l.acquiredAt > env.staleThreshold * nsPerSec)
    | some t => decide (env.now - t > env.staleThreshold * nsPerSec)

/-- Outcome of one `Manager.Acquire` call in the sequential model. -/
inductive AcqResult where
  | ok
  | conflict (l : Lock)
deriving DecidableEq

/-- Embeds `Manager.Acquire` (lock.go lines 42-93) on a private store: resolve
a zero TTL to the configured default, attempt the exclusive create, and on a
collision read the existing record and consult `IsStale`; a stale record is
removed and the call recurses.  In this sequential model the removal always
succeeds and the immediate retry finds the name free, so the recursion is
unrolled once; the inner `lookupStore` branch re-checks the name exactly as
the recursive call would (its `some` arm is unreachable here, see
`lookupStore_eraseStore_self`).  The behaviour of the recursion against an
interfering environment is modelled separately by `acquireRun`. -/
def Acquire (env : Env) (resource agentID agentName operation : String) (ttl : Int)
    (st : Store) : AcqResult × Store :=
  let ttlEff := if ttl = 0 then env.defaultTTL else ttl
  let k := lockKey resource
  let newLock : Lock :=
    ⟨resource, agentID, agentName, operation, env.now, ttlEff, env.pid⟩
  match lookupStore st k with
  | none => (.ok, insertStore st k newLock)
  | some existing =>
    if IsStale env existing then
      let st' := eraseStore st k
      match lookupStore st' k with
      | none => (.ok, insertStore st' k newLock)
      | some again => (.conflict again, st')
    else (.conflict existing, st)

/-- Runs one `Acquire` per owner, in the given serialization order, threading
the store.  The exclusive create is the only mutation of shared state and is
atomic (`O_EXCL`), so any interleaving of N concurrent calls observes the
store as some such serialization. -/
def runAcquires (env : Env) (resource : String) (ttl : Int) :
    List String → Store → List AcqResult × Store
  | [], st => ([], st)
  | o :: os, st =>
    let step := Acquire env resource o "" "" ttl st
    let rest := runAcquires env resource ttl os step.2
    (step.1 :: rest.1, rest.2)

/-- Outcome of one `Manager.Release` call. -/
inductive RelResult where
  | ok
  | ownedByOther (owner : String)
deriving DecidableEq

/-- Embeds `Manager.Release` (lock.go lines 96-112): a missing record is a
successful no-op, a record owned by a different agent is an ownership error
and is left in place, and an owned record is removed. -/
def Release (resource agentID : String) (st : Store) : RelResult × Store :=
  match ReadLock st resource with
  | none => (.ok, st)
  | some existing =>
    if existing.agentID = agentID then (.ok, eraseStore st (lockKey resource))
    else (.ownedByOther existing.agentID, st)

/-- One iteration of the `Manager.ReleaseAll` loop (lock.go lines 121-128):
locks of other owners are skipped, and a failing release appends its error to
the accumulator instead of stopping the loop. -/
def releaseAllStep (agentID : String) (acc : List String × Store) (l : Lock) :
    List String × Store :=
  if l.agentID = agentID then
    match Release l.resource agentID acc.2 with
    | (.ok, st') => (acc.1, st')
    | (.ownedByOther o, st') => (acc.1 ++ [o], st')
  else acc

/-- Embeds `Manager.ReleaseAll` (lock.go lines 115-134): snapshot the lock
list once, release every lock owned by the agent, and return the collected
per-lock failures (an empty list is the `nil` aggregated error) together with
the final store. -/
def ReleaseAll (agentID : String) (st : Store) : List String × Store :=
  (listLocks st).foldl (releaseAllStep agentID) ([], st)

/-- Embeds `Manager.CleanStale` (lock.go lines 212-229): snapshot the lock
list, remove every stale lock, and report the reclaimed resources. -/
def CleanStale (env : Env) (st : Store) : List String × Store :=
  (listLocks st).foldl
    (fun acc l =>
      if IsStale env l then (acc.1 ++ [l.resource], eraseStore acc.2 (lockKey l.resource))
      else acc)
    ([], st)

/-- Embeds `Manager.Check` (lock.go lines 232-272): resolve the file against
the configured patterns; if unprotected return `(none, false)`; otherwise
return the first listed lock whose recorded resource equals the matched
pattern or itself glob-matches the file, or `(none, true)` when the resource
is protected but free.  The Go error return covers directory-read failures
that cannot occur on the embedded store and is dropped. -/
def Check (env : Env) (file : String) (st : Store) : Option Lock × Bool :=
  match resolvePattern env.patterns file with
  | none => (none, false)
  | some pat =>
    match (listLocks st).find? (fun l => l.resource = pat || globMatch l.resource file) with
    | some l => (some l, true)
    | none => (none, true)

/-- Outcome of one `Manager.CheckOrAcquire` call, mirroring the Go
`(*Lock, error)` pair: `notProtected` is `(nil, nil)`, `ok` is a lock with a
`nil` error, `lockedBy` is the conflict error of lines 285-289,
`acquireFailed` is a failing inner `Acquire`, and `readFailed` is a failing
final read-back. -/
inductive CoaResult where
  | notProtected
  | ok (l : Lock)
  | lockedBy (l : Lock)
  | acquireFailed (r : AcqResult)
  | readFailed
deriving DecidableEq

/-- Embeds `Manager.CheckOrAcquire` (lock.go lines 275-307): consult `Check`;
an unprotected file needs no lock; an existing lock is returned as-is when
owned by the caller and is a conflict otherwise (with no staleness check);
when the resource is protected but free, re-resolve the pattern (the source
repeats the loop, with `""` when nothing matches), acquire it with a zero TTL
and return the record read back from the store. -/
def CheckOrAcquire (env : Env) (file agentID agentName operation : String)
    (st : Store) : CoaResult × Store :=
  match Check env file st with
  | (_, false) => (.notProtected, st)
  | (some l, true) =>
    if l.agentID = agentID then (.ok l, st) else (.lockedBy l, st)
  | (none, true) =>
    let resource := (resolvePattern env.patterns file).getD ""
    match Acquire env resource agentID agentName operation 0 st with
    | (.ok, st') =>
      match ReadLock st' resource with
      | some l => (.ok l, st')
      | none => (.readFailed, st')
    | (.conflict l, st') => (.acquireFailed (.conflict l), st')

/-- What one exclusive-create attempt inside `Acquire` can observe when other
processes interfere between attempts: the name is free (the `O_EXCL` open
succeeds), the name is taken but the record cannot be read back, or the name
is taken by a readable record together with the outcome the subsequent
`os.Remove` would have. -/
inductive Obs where
  | free
  | takenUnreadable
  | taken (l : Lock) (removeOk : Bool)
deriving DecidableEq

/-- Result of `Acquire` in the interference model. -/
inductive AcqRunResult where
  | ok
  | conflict (l : Lock)
  | readFailed
  | outOfTrace
deriving DecidableEq

/-- Embeds the retry structure of `Manager.Acquire` (lock.go lines 68-84)
against an arbitrary interference trace: attempt the exclusive create; on a
collision with a readable record that is stale and whose removal succeeds,
recurse on the rest of the trace (line 77); any other collision surfaces a
conflict; an unreadable record surfaces the wrapped open error.  Returns the
result together with the number of create attempts consumed.  `outOfTrace`
marks a trace too short to determine the outcome; it never occurs on the
traces the theorems use. -/
def acquireRun (env : Env) : List Obs → AcqRunResult × Nat
  | [] => (.outOfTrace, 0)
  | .free :: _ => (.ok, 1)
  | .takenUnreadable :: _ => (.readFailed, 1)
  | .taken l rok :: rest =>
    if IsStale env l && rok then
      let r := acquireRun env rest
      (r.1, r.2 + 1)
    else (.conflict l, 1)

/-- Modelled from the spec: the bounded-retry `Acquire` of section 4.5 — on a
stale collision, delete the record and retry the exclusive create exactly
once; if the retry also collides, surface the conflict rather than loop. -/
def acquireSpecRetry (env : Env) : List Obs → AcqRunResult
  | [] => .outOfTrace
  | .free :: _ => .ok
  | .takenUnreadable :: _ => .readFailed
  | .taken l rok :: rest =>
    if IsStale env l && rok then
      match rest with
      | [] => .outOfTrace
      | .free :: _ => .ok
      | .takenUnreadable :: _ => .readFailed
      | .taken l' _ :: _ => .conflict l'
    else .conflict l

/-- Character action of the lock-key encoding. -/
def lockCharMap (c : Char) : Char :=
  if c = '/' ∨ c = '\\' then '-' else if c = '*' ∨ c = '?' then '_' else c

/-- Character action of the agent-key encoding. -/
def agentCharMap (c : Char) : Char :=
  if c = '/' ∨ c = '\\' then '-' else c

/-- Well-formedness of a lock directory as the code itself produces it: every
file is named by the encoding of the resource recorded inside it, and file
names are distinct (the filesystem guarantees the latter). -/
def WFStore (st : Store) : Prop :=
  (∀ e ∈ st, e.1 = lockKey e.2.resource) ∧ (st.map Prod.fst).Nodup

/-! Concrete fixtures used by individual witnesses and counterexamples. -/

/-- A manager state whose clock is 200 s, with default settings, no heartbeat
records, and one protected pattern. -/
def envC10fix : Env := ⟨200 * nsPerSec, 7, 300, 120, fun _ => none, [⟨"db/**/*"⟩]⟩

/-- A lock on the protected pattern held by agent B whose 1 s TTL elapsed
199 s ago: stale under the policy. -/
def lockC10fix : Lock := ⟨"db/**/*", "B", "", "migrate", 0, 1, 3⟩

/-- The store holding only that stale lock. -/
def stC10fix : Store := [(lockKey "db/**/*", lockC10fix)]

/-- A manager state at 200 s in which agent A's heartbeat file was last
touched at time 0, i.e. 200 s ago — beyond the 120 s stale threshold. -/
def envC1fix : Env :=
  ⟨200 * nsPerSec, 7, 300, 120, fun o => if o = "A" then some 0 else none, []⟩

/-- A manager state at 100 s with no heartbeat records at all. -/
def envC1Wfix : Env := ⟨100 * nsPerSec, 7, 300, 120, fun _ => none, []⟩

/-- A manager state at 10 s with no heartbeat records. -/
def envC4fix : Env := ⟨10 * nsPerSec, 7, 300, 120, fun _ => none, []⟩

/-- A lock whose 1 s TTL elapsed 9 s ago under `envC4fix`: stale. -/
def lockS1fix : Lock := ⟨"r", "A", "", "", 0, 1, 1⟩

/-- A second stale lock on the same resource, held by agent B. -/
def lockS2fix : Lock := ⟨"r", "B", "", "", 0, 1, 2⟩

/-- A live lock under `envC4fix`: 300 s TTL with 10 s elapsed, within the
no-heartbeat grace period. -/
def lockLiveFix : Lock := ⟨"r", "C", "", "", 0, 300, 3⟩

/-- An interference trace in which the first two create attempts collide with
removable stale locks and the third finds the name free. -/
def traceC4fix : List Obs := [.taken lockS1fix true, .taken lockS2fix true, .free]

/-- An interference trace in which a removable stale collision is followed by
a collision with a live lock. -/
def traceC4Wfix : List Obs := [.taken lockS1fix true, .taken lockLiveFix true]

/-- A lock on `r1` owned by A, sitting in a file whose name does not match
its content (ill-formed on purpose). -/
def lockBadA1Fix : Lock := ⟨"r1", "A", "", "", 0, 300, 1⟩

/-- A lock on `r1` owned by B, sitting at the properly encoded name. -/
def lockBadB1Fix : Lock := ⟨"r1", "B", "", "", 0, 300, 2⟩

/-- A lock on `r2` owned by A at the properly encoded name. -/
def lockBadA2Fix : Lock := ⟨"r2", "A", "", "", 0, 300, 1⟩

/-- An ill-formed store: A's `r1` lock lives in a stray file `zz`, so
releasing `r1` hits B's record and fails, while A's `r2` lock is normal. -/
def stBadFix : Store :=
  [("zz", lockBadA1Fix), (lockKey "r1", lockBadB1Fix), (lockKey "r2", lockBadA2Fix)]

/-- A well-formed store with `r1`, `r2` owned by A and `r3` owned by B. -/
def stWFix : Store :=
  [(lockKey "r1", ⟨"r1", "A", "", "", 0, 300, 1⟩),
   (lockKey "r2", ⟨"r2", "A", "", "", 0, 300, 1⟩),
   (lockKey "r3", ⟨"r3", "B", "", "", 0, 300, 2⟩)]

/-! Helper lemmas about the store primitives. -/

theorem lookupStore_eraseStore_self (st : Store) (k : String) :
    lookupStore (eraseStore st k) k = none := by
  induction st with
  | nil => rfl
  | cons e rest ih =>
    by_cases h : e.1 = k
    · simpa [eraseStore, h] using ih
    · simpa [eraseStore, lookupStore, h] using ih

theorem lookupStore_insertStore_self (st : Store) (k : String) (l : Lock) :
    lookupStore (insertStore st k l) k = some l := by
  simp [insertStore, lookupStore]

theorem lookupStore_append_right (l₁ l₂ : Store) (k : String)
    (h : ∀ e ∈ l₁, ¬ e.1 = k) :
    lookupStore (l₁ ++ l₂) k = lookupStore l₂ k := by
  induction l₁ with
  | nil => rfl
  | cons e rest ih =>
    have he : ¬ e.1 = k := h e (by simp)
    simp only [List.cons_append, lookupStore, if_neg he]
    exact ih fun x hx => h x (by simp [hx])

theorem eraseStore_append (l₁ l₂ : Store) (k : String) :
    eraseStore (l₁ ++ l₂) k = eraseStore l₁ k ++ eraseStore l₂ k := by
  induction l₁ with
  | nil => rfl
  | cons e rest ih =>
    by_cases h : e.1 = k <;> simp [eraseStore, h, ih]

theorem eraseStore_of_forall_ne (l : Store) (k : String)
    (h : ∀ e ∈ l, ¬ e.1 = k) : eraseStore l k = l := by
  induction l with
  | nil => rfl
  | cons e rest ih =>
    have he : ¬ e.1 = k := h e (by simp)
    simp only [eraseStore, if_neg he]
    exact congrArg _ (ih fun x hx => h x (by simp [hx]))

/-- An `Acquire` that finds the name free creates the lock record. -/
theorem Acquire_free (env : Env) (resource agentID agentName operation : String)
    (ttl : Int) (st : Store) (h : ReadLock st resource = none) :
    Acquire env resource agentID agentName operation ttl st =
      (.ok, insertStore st (lockKey resource)
        ⟨resource, agentID, agentName, operation, env.now,
          if ttl = 0 then env.defaultTTL else ttl, env.pid⟩) := by
  rw [ReadLock] at h
  simp [Acquire, h]

/-- An `Acquire` that collides with a record that is not stale surfaces the
conflict and leaves the store unchanged. -/
theorem Acquire_conflict (env : Env) (resource agentID agentName operation : String)
    (ttl : Int) (st : Store) (l : Lock) (h : ReadLock st resource = some l)
    (hns : IsStale env l = false) :
    Acquire env resource agentID agentName operation ttl st = (.conflict l, st) := by
  rw [ReadLock] at h
  simp [Acquire, h, hns]

/-- A lock acquired at the current instant is not stale, provided its TTL and
the stale threshold are nonnegative and its owner's heartbeat record, when
present, is itself within the stale threshold. -/
theorem isStale_fresh (env : Env) (l : Lock)
    (hacq : l.acquiredAt = env.now) (httl : 0 ≤ l.ttlSeconds)
    (hth : 0 ≤ env.staleThreshold)
    (hhb : ∀ t, env.hb l.agentID = some t →
      env.now - t ≤ env.staleThreshold * nsPerSec) :
    IsStale env l = false := by
  have hns : (0 : Int) < nsPerSec := by norm_num [nsPerSec]
  have h1 : ¬ env.now - l.acquiredAt > l.ttlSeconds * nsPerSec := by
    rw [hacq, sub_self]
    exact not_lt.mpr (mul_nonneg httl hns.le)
  rw [IsStale, if_neg h1]
  match hb : env.hb l.agentID with
  | none =>
    rw [hacq, sub_self]
    simpa using not_lt.mpr (mul_nonneg hth hns.le)
  | some t =>
    simpa using not_lt.mpr (hhb t hb)

/-- C2: `IsStale` follows the three-step staleness policy in order: a lock
whose age exceeds its TTL is stale regardless of agent liveness; otherwise,
with no heartbeat record it is stale exactly when its age exceeds the stale
threshold; with a heartbeat record it is stale exactly when the heartbeat's
age exceeds the stale threshold; otherwise it is not stale. -/
theorem C2_isStale_policy (env : Env) (l : Lock) :
    (env.now - l.acquiredAt > l.ttlSeconds * nsPerSec → IsStale env l = true) ∧
    (env.now - l.acquiredAt ≤ l.ttlSeconds * nsPerSec → env.hb l.agentID = none →
      (IsStale env l = true ↔
        env.now - l.acquiredAt > env.staleThreshold * nsPerSec)) ∧
    (∀ t, env.now - l.acquiredAt ≤ l.ttlSeconds * nsPerSec →
      env.hb l.agentID = some t →
      (IsStale env l = true ↔ env.now - t > env.staleThreshold * nsPerSec)) := by
  refine ⟨fun h => by simp [IsStale, h], fun h hnone => ?_, fun t h hsome => ?_⟩
  · rw [IsStale, if_neg (not_lt.mpr h), hnone]
    simp
  · rw [IsStale, if_neg (not_lt.mpr h), hsome]
    simp

/-- C2 witness: a lock within its 300 s TTL, with no heartbeat record, whose
age of 150 s exceeds the 120 s stale threshold, is stale by the middle rule. -/
theorem C2_isStale_policy_witness :
    IsStale ⟨150 * nsPerSec, 7, 300, 120, fun _ => none, []⟩
      ⟨"r", "A", "", "", 0, 300, 7⟩ = true :=
  ((C2_isStale_policy ⟨150 * nsPerSec, 7, 300, 120, fun _ => none, []⟩
      ⟨"r", "A", "", "", 0, 300, 7⟩).2.1 (by decide) rfl).mpr (by decide)

/-- C3 counterexample: a lock with `ttl_seconds = 1`, two seconds after
acquisition, owned by an agent whose heartbeat was refreshed at this very
instant (well within the 120 s stale threshold), is nevertheless judged stale
— the TTL check of lock.go line 188 fires before the heartbeat is ever
consulted — and `CleanStale` reclaims it. -/
theorem C3_fresh_heartbeat_reclaimed_cex :
    IsStale ⟨2 * nsPerSec, 7, 300, 120, fun _ => some (2 * nsPerSec), []⟩
      ⟨"r", "A", "", "", 0, 1, 7⟩ = true ∧
    CleanStale ⟨2 * nsPerSec, 7, 300, 120, fun _ => some (2 * nsPerSec), []⟩
      [(lockKey "r", ⟨"r", "A", "", "", 0, 1, 7⟩)] = (["r"], []) := by
  exact ⟨by decide, by decide⟩

/-- C3 amended: a fresh heartbeat keeps a lock non-stale only up to its TTL —
for a lock whose owner's heartbeat was refreshed within the last
`stale_threshold` seconds, the lock is not stale exactly as long as
`now - acquired_at` has not exceeded `ttl_seconds`; once the TTL elapses the
lock is stale (and reclaimable) despite the fresh heartbeat. -/
theorem C3_fresh_heartbeat_within_ttl (env : Env) (l : Lock) (t : Int)
    (hhb : env.hb l.agentID = some t)
    (hfresh : env.now - t ≤ env.staleThreshold * nsPerSec) :
    IsStale env l = false ↔ env.now - l.acquiredAt ≤ l.ttlSeconds * nsPerSec := by
  rw [IsStale]
  by_cases h : env.now - l.acquiredAt > l.ttlSeconds * nsPerSec
  · rw [if_pos h]
    simp [not_le.mpr h]
  · rw [if_neg h, hhb]
    simp [not_lt.mpr hfresh, not_lt.1 h]

/-- C3 amended witness: same fresh heartbeat, but a 300 s TTL that has not
elapsed after 2 s: the lock is not stale. -/
theorem C3_fresh_heartbeat_within_ttl_witness :
    IsStale ⟨2 * nsPerSec, 7, 300, 120, fun _ => some (2 * nsPerSec), []⟩
      ⟨"r", "A", "", "", 0, 300, 7⟩ = false :=
  (C3_fresh_heartbeat_within_ttl
      ⟨2 * nsPerSec, 7, 300, 120, fun _ => some (2 * nsPerSec), []⟩
      ⟨"r", "A", "", "", 0, 300, 7⟩ (2 * nsPerSec) rfl (by decide)).mpr (by decide)

/-- C5: `Release` is an idempotent no-op when no lock record exists, fails
with an ownership error and leaves the record in place when the lock is owned
by a different agent, and deletes the record when the caller owns it. -/
theorem C5_release_cases (resource agentID : String) (st : Store) :
    (ReadLock st resource = none → Release resource agentID st = (.ok, st)) ∧
    (∀ l, ReadLock st resource = some l → ¬ l.agentID = agentID →
      Release resource agentID st = (.ownedByOther l.agentID, st)) ∧
    (∀ l, ReadLock st resource = some l → l.agentID = agentID →
      Release resource agentID st = (.ok, eraseStore st (lockKey resource)) ∧
        ReadLock (eraseStore st (lockKey resource)) resource = none) := by
  refine ⟨fun h => by simp [Release, h], fun l h hne => by simp [Release, h, hne],
    fun l h heq => ⟨by simp [Release, h, heq], ?_⟩⟩
  rw [ReadLock]
  exact lookupStore_eraseStore_self st (lockKey resource)

/-- C5 witness: releasing a free resource succeeds; releasing agent A's lock
as agent B fails with the ownership error and leaves the store unchanged;
releasing it as A deletes it. -/
theorem C5_release_cases_witness :
    Release "r" "B" [(lockKey "r", ⟨"r", "A", "", "", 0, 300, 1⟩)] =
      (.ownedByOther "A", [(lockKey "r", ⟨"r", "A", "", "", 0, 300, 1⟩)]) ∧
    Release "r" "B" [] = (.ok, []) ∧
    Release "r" "A" [(lockKey "r", ⟨"r", "A", "", "", 0, 300, 1⟩)] = (.ok, []) := by
  refine ⟨(C5_release_cases "r" "B"
      [(lockKey "r", ⟨"r", "A", "", "", 0, 300, 1⟩)]).2.1
      ⟨"r", "A", "", "", 0, 300, 1⟩ (by decide) (by decide), ?_, ?_⟩
  · exact (C5_release_cases "r" "B" []).1 rfl
  · have h := (C5_release_cases "r" "A"
      [(lockKey "r", ⟨"r", "A", "", "", 0, 300, 1⟩)]).2.2
      ⟨"r", "A", "", "", 0, 300, 1⟩ (by decide) rfl
    rw [h.1]
    decide

/-- C9 counterexample: the two stores do not share one encoding rule — the
agent-registry key of `db/*` keeps the `*` (agent.go replaces only `/` and
`\`), while the lock-store key replaces it with `_`. -/
theorem C9_encoding_not_shared_cex :
    agentKey "db/*" = "db-*" ∧ lockKey "db/*" = "db-_" ∧
    ¬ agentKey "db/*" = lockKey "db/*" := by
  exact ⟨by decide, by decide, by decide⟩

/-- The four chained single-character replacements of `lockPath` act on each
character independently. -/
theorem lockKey_data (resource : String) :
    (lockKey resource).data = resource.data.map lockCharMap := by
  show replaceAllChar '?' '_' (replaceAllChar '*' '_'
      (replaceAllChar '\\' '-' (replaceAllChar '/' '-' resource.data))) =
    resource.data.map lockCharMap
  induction resource.data with
  | nil => rfl
  | cons c cs ih =>
    simp only [replaceAllChar, List.map]
    rw [ih]
    congr 1
    by_cases h1 : c = '/'
    · subst h1; decide
    by_cases h2 : c = '\\'
    · subst h2; decide
    by_cases h3 : c = '*'
    · subst h3; decide
    by_cases h4 : c = '?'
    · subst h4; decide
    simp [h1, h2, h3, h4, lockCharMap]

/-- The two chained single-character replacements of `agentPath` act on each
character independently. -/
theorem agentKey_data (id : String) :
    (agentKey id).data = id.data.map agentCharMap := by
  show replaceAllChar '\\' '-' (replaceAllChar '/' '-' id.data) =
    id.data.map agentCharMap
  induction id.data with
  | nil => rfl
  | cons c cs ih =>
    simp only [replaceAllChar, List.map]
    rw [ih]
    congr 1
    by_cases h1 : c = '/'
    · subst h1; decide
    by_cases h2 : c = '\\'
    · subst h2; decide
    simp [h1, h2, agentCharMap]

/-- C9 amended: the lock-store key replaces each of `/`, `\` (by `-`) and
`*`, `?` (by `_`), so lock keys contain none of the four characters; the
agent-registry key replaces only the path separators `/` and `\` (by `-`) and
in particular may retain `*` and `?` — the two stores share the separator
rule but only the lock store escapes the glob metacharacters. -/
theorem C9_key_encodings (resource id : String) :
    (lockKey resource).data = resource.data.map lockCharMap ∧
    (agentKey id).data = id.data.map agentCharMap ∧
    (∀ c ∈ (lockKey resource).data, ¬(c = '/' ∨ c = '\\' ∨ c = '*' ∨ c = '?')) ∧
    (∀ c ∈ (agentKey id).data, ¬(c = '/' ∨ c = '\\')) := by
  refine ⟨lockKey_data resource, agentKey_data id, ?_, ?_⟩
  · intro c hc
    rw [lockKey_data] at hc
    obtain ⟨x, _, rfl⟩ := List.mem_map.mp hc
    rw [lockCharMap]
    split_ifs with h1 h2
    · decide
    · decide
    · tauto
  · intro c hc
    rw [agentKey_data] at hc
    obtain ⟨x, _, rfl⟩ := List.mem_map.mp hc
    rw [agentCharMap]
    split_ifs with h1
    · decide
    · tauto

/-- C9 amended witness: the lock key of `db/*` is free of `*`, while the
agent key of the same string still contains it. -/
theorem C9_key_encodings_witness :
    ¬ '*' ∈ (lockKey "db/*").data ∧ '*' ∈ (agentKey "db/*").data :=
  ⟨fun h => (C9_key_encodings "db/*" "db/*").2.2.1 '*' h (by decide), by decide⟩

/-- If `resolvePattern` answers `some p`, then `p` is the pattern of some
configured entry, it glob-matches the file, and every entry earlier in the
configured order fails to match. -/
theorem resolvePattern_first_match :
    ∀ (ps : List ProtectedPath) (f p : String), resolvePattern ps f = some p →
      ∃ i pp, ps.get? i = some pp ∧ pp.pattern = p ∧ globMatch p f = true ∧
        ∀ j q, j < i → ps.get? j = some q → globMatch q.pattern f = false := by
  intro ps
  induction ps with
  | nil => intro f p h; simp [resolvePattern] at h
  | cons pp ps ih =>
    intro f p h
    by_cases hm : globMatch pp.pattern f = true
    · rw [resolvePattern, if_pos hm] at h
      obtain rfl : pp.pattern = p := Option.some.inj h
      exact ⟨0, pp, rfl, rfl, hm, fun j q hj _ => absurd hj (Nat.not_lt_zero j)⟩
    · rw [resolvePattern, if_neg hm] at h
      obtain ⟨i, pp', hi, hp, hg, hprev⟩ := ih f p h
      refine ⟨i + 1, pp', by simpa using hi, hp, hg, ?_⟩
      intro j q hj hq
      cases j with
      | zero =>
        obtain rfl : pp = q := Option.some.inj (by simpa using hq)
        simpa using hm
      | succ j' => exact hprev j' q (Nat.lt_of_succ_lt_succ hj) (by simpa using hq)

/-- `resolvePattern` answers `none` exactly when no configured pattern
matches the file. -/
theorem resolvePattern_none_iff (ps : List ProtectedPath) (f : String) :
    resolvePattern ps f = none ↔ ∀ pp ∈ ps, globMatch pp.pattern f = false := by
  induction ps with
  | nil => simp [resolvePattern]
  | cons pp ps ih =>
    by_cases hm : globMatch pp.pattern f = true
    · rw [resolvePattern, if_pos hm]
      simp [hm]
    · rw [resolvePattern, if_neg hm]
      simp only [List.mem_cons, ih]
      constructor
      · rintro h q (rfl | hq)
        · simpa using hm
        · exact h q hq
      · intro h q hq
        exact h q (Or.inr hq)

/-- C6: pattern resolution is first-match-wins and order-stable — a resolved
pattern glob-matches the file and every earlier configured pattern does not,
resolution answers none exactly when no pattern matches, and for the patterns
`db/**/*`, `db/schema/*` (both of which match) the file `db/schema/users.sql`
resolves to the first, `db/**/*`.  Brace-list patterns take part in the same
dialect and the same ordering: `{db,migrations}/**/*` matches the file, and
with patterns `{a,b}`, `a` the file `a` resolves to the earlier `{a,b}`. -/
theorem C6_first_match_wins :
    (∀ ps f p, resolvePattern ps f = some p →
      ∃ i pp, ps.get? i = some pp ∧ pp.pattern = p ∧ globMatch p f = true ∧
        ∀ j q, j < i → ps.get? j = some q → globMatch q.pattern f = false) ∧
    (∀ ps f, resolvePattern ps f = none ↔ ∀ pp ∈ ps, globMatch pp.pattern f = false) ∧
    globMatch "db/schema/*" "db/schema/users.sql" = true ∧
    resolvePattern [⟨"db/**/*"⟩, ⟨"db/schema/*"⟩] "db/schema/users.sql" =
      some "db/**/*" ∧
    globMatch "\x7bdb,migrations\x7d/**/*" "db/schema/users.sql" = true ∧
    resolvePattern [⟨"\x7ba,b\x7d"⟩, ⟨"a"⟩] "a" = some "\x7ba,b\x7d" :=
  ⟨resolvePattern_first_match, resolvePattern_none_iff, by decide, by decide,
    by decide, by decide⟩

/-- C6 witness: the resolution of `db/schema/users.sql` against the two
configured patterns is matched by the first-match characterization. -/
theorem C6_first_match_wins_witness :
    ∃ i pp, ([⟨"db/**/*"⟩, ⟨"db/schema/*"⟩] : List ProtectedPath).get? i = some pp ∧
      pp.pattern = "db/**/*" ∧ globMatch "db/**/*" "db/schema/users.sql" = true ∧
      ∀ j q, j < i →
        ([⟨"db/**/*"⟩, ⟨"db/schema/*"⟩] : List ProtectedPath).get? j = some q →
        globMatch q.pattern "db/schema/users.sql" = false :=
  C6_first_match_wins.1 [⟨"db/**/*"⟩, ⟨"db/schema/*"⟩] "db/schema/users.sql"
    "db/**/*" (by decide)

/-- C10: `CheckOrAcquire` never reclaims a stale lock — whenever `Check`
finds an existing lock owned by a different agent, `CheckOrAcquire` fails
with the conflict of lock.go line 289 and leaves the store unchanged, with no
staleness consultation at all (the stale-reclaim path exists only inside
`Acquire`, which this branch never reaches). -/
theorem C10_no_stale_reclaim (env : Env) (file agentID agentName operation : String)
    (st : Store) (l : Lock) (hc : Check env file st = (some l, true))
    (hne : ¬ l.agentID = agentID) :
    CheckOrAcquire env file agentID agentName operation st = (.lockedBy l, st) := by
  unfold CheckOrAcquire
  rw [hc]
  simp [hne]

/-- C10 witness: agent B's lock on `db/**/*` is stale (its 1 s TTL elapsed
199 s ago), yet agent A's `CheckOrAcquire` on a covered file surfaces the
conflict instead of reclaiming it, and the lock record survives. -/
theorem C10_no_stale_reclaim_witness :
    IsStale envC10fix lockC10fix = true ∧
    CheckOrAcquire envC10fix "db/schema/users.sql" "A" "" "" stC10fix =
      (.lockedBy lockC10fix, stC10fix) :=
  ⟨by decide, C10_no_stale_reclaim envC10fix "db/schema/users.sql" "A" "" ""
    stC10fix lockC10fix (by decide) (by decide)⟩

/-- After a collision with a record that is not stale, every further caller
conflicts and the store never changes. -/
theorem runAcquires_all_conflict (env : Env) (resource : String) (ttl : Int)
    (os : List String) (st : Store) (l : Lock)
    (hl : ReadLock st resource = some l) (hns : IsStale env l = false) :
    runAcquires env resource ttl os st =
      (os.map fun _ => AcqResult.conflict l, st) := by
  induction os with
  | nil => rfl
  | cons o os ih =>
    simp only [runAcquires, Acquire_conflict env resource o "" "" ttl st l hl hns, ih,
      List.map]

/-- C1 counterexample: with the lock on `r` free, two distinct owners A and B
acquire it in sequence — and both succeed, because A's pre-existing
heartbeat record is 200 s old, so A's freshly created lock is immediately
judged stale and B reclaims it.  The claimed "exactly one success" fails. -/
theorem C1_stale_heartbeat_breaks_mutex_cex :
    (runAcquires envC1fix "r" 300 ["A", "B"] []).1 = [.ok, .ok] ∧
    (runAcquires envC1fix "r" 300 ["A", "B"] []).1.count .ok = 2 := by
  exact ⟨by decide, by decide⟩

/-- C1 amended: starting from a state in which the resource key is free, and
provided the effective TTL and the stale threshold are nonnegative and every
owner's heartbeat record is absent or refreshed within the stale threshold
(so that the winner's fresh lock is not itself judged stale), N serialized
`Acquire` calls from distinct owners yield exactly one success and N − 1
conflicts, for every N ≥ 1 and every serialization order — the exclusive
create (`O_EXCL`) is the only mutation of shared state, so any concurrent
interleaving observes some such order. -/
theorem C1_mutual_exclusion_amended (env : Env) (resource : String) (ttl : Int)
    (owners : List String) (st : Store)
    (hfree : ReadLock st resource = none)
    (hne : owners ≠ [])
    (hnd : owners.Nodup)
    (httl : 0 ≤ if ttl = 0 then env.defaultTTL else ttl)
    (hth : 0 ≤ env.staleThreshold)
    (hhb : ∀ o ∈ owners, ∀ t, env.hb o = some t →
      env.now - t ≤ env.staleThreshold * nsPerSec) :
    (runAcquires env resource ttl owners st).1.count AcqResult.ok = 1 ∧
    (runAcquires env resource ttl owners st).1.countP
      (fun r => match r with | .conflict _ => true | _ => false) =
      owners.length - 1 := by
  match owners, hne with
  | o :: os, _ =>
    have hstep := Acquire_free env resource o "" "" ttl st hfree
    have hread : ReadLock
        (insertStore st (lockKey resource)
          ⟨resource, o, "", "", env.now,
            if ttl = 0 then env.defaultTTL else ttl, env.pid⟩) resource =
        some ⟨resource, o, "", "", env.now,
          if ttl = 0 then env.defaultTTL else ttl, env.pid⟩ := by
      rw [ReadLock]
      exact lookupStore_insertStore_self st (lockKey resource) _
    have hfreshns : IsStale env
        ⟨resource, o, "", "", env.now,
          if ttl = 0 then env.defaultTTL else ttl, env.pid⟩ = false :=
      isStale_fresh env _ rfl httl hth (fun t ht => hhb o (by simp) t ht)
    have hrest := runAcquires_all_conflict env resource ttl os _ _ hread hfreshns
    have hrun : runAcquires env resource ttl (o :: os) st =
        (AcqResult.ok :: (os.map fun _ => AcqResult.conflict
          ⟨resource, o, "", "", env.now,
            if ttl = 0 then env.defaultTTL else ttl, env.pid⟩),
          insertStore st (lockKey resource)
            ⟨resource, o, "", "", env.now,
              if ttl = 0 then env.defaultTTL else ttl, env.pid⟩) := by
      simp only [runAcquires, hstep, hrest]
    have hlist : (runAcquires env resource ttl (o :: os) st).1 =
        AcqResult.ok :: (os.map fun _ => AcqResult.conflict
          ⟨resource, o, "", "", env.now,
            if ttl = 0 then env.defaultTTL else ttl, env.pid⟩) := by
      rw [hrun]
    have hzero : (os.map fun _ => AcqResult.conflict
        ⟨resource, o, "", "", env.now,
          if ttl = 0 then env.defaultTTL else ttl, env.pid⟩).count
        AcqResult.ok = 0 := by
      rw [List.count_eq_zero]
      intro ha
      obtain ⟨x, _, hx⟩ := List.mem_map.mp ha
      exact AcqResult.noConfusion hx
    have hall : (os.map fun _ => AcqResult.conflict
        ⟨resource, o, "", "", env.now,
          if ttl = 0 then env.defaultTTL else ttl, env.pid⟩).countP
        (fun r => match r with | .conflict _ => true | _ => false) =
        os.length := by
      rw [← List.length_map os (fun _ => AcqResult.conflict
        ⟨resource, o, "", "", env.now,
          if ttl = 0 then env.defaultTTL else ttl, env.pid⟩)]
      rw [List.countP_eq_length]
      intro a ha
      obtain ⟨x, _, rfl⟩ := List.mem_map.mp ha
      rfl
    constructor
    · rw [hlist, List.count_cons, hzero]
      simp
    · rw [hlist, List.countP_cons, hall]
      simp

/-- C1 amended witness: three distinct owners with no heartbeat records race
for a free resource: exactly one success and two conflicts. -/
theorem C1_mutual_exclusion_amended_witness :
    (runAcquires envC1Wfix "r" 300 ["A", "B", "C"] []).1.count AcqResult.ok = 1 ∧
    (runAcquires envC1Wfix "r" 300 ["A", "B", "C"] []).1.countP
      (fun r => match r with | .conflict _ => true | _ => false) = 2 :=
  C1_mutual_exclusion_amended envC1Wfix "r" 300 ["A", "B", "C"] [] rfl
    (by simp) (by decide) (by decide) (by decide)
    (by intro o ho t ht; simp [envC1Wfix] at ht)

/-- C4 counterexample: on a trace in which the first two create attempts hit
removable stale locks and the third finds the name free, `Acquire` consumes
three attempts — it reclaims twice and succeeds, i.e. it retries more than
once — whereas the single-bounded-retry algorithm of the claim would have
surfaced the second collision as a conflict. -/
theorem C4_single_retry_cex :
    acquireRun envC4fix traceC4fix = (.ok, 3) ∧
    2 < (acquireRun envC4fix traceC4fix).2 ∧
    acquireSpecRetry envC4fix traceC4fix = .conflict lockS2fix := by
  exact ⟨by decide, by decide, by decide⟩

/-- C4 amended: on a stale collision whose removal succeeds, `Acquire`
recursively retries the exclusive create — one retry per successful stale
reclaim, with no a-priori bound on the number of reclaims: every attempt
before the final one was a collision with a removable stale lock, a conflict
is surfaced exactly from a collision that is not a successful stale reclaim
(the lock is live, or its removal failed), and the recursion consumes no more
attempts than the interference trace offers. -/
theorem C4_reclaim_recursion (env : Env) (t : List Obs) :
    (acquireRun env t).2 ≤ t.length ∧
    ((acquireRun env t).2 = 0 → (acquireRun env t).1 = .outOfTrace) ∧
    (∀ i, i + 1 < (acquireRun env t).2 →
      ∃ l, t.get? i = some (.taken l true) ∧ IsStale env l = true) ∧
    (∀ l, (acquireRun env t).1 = .conflict l →
      ∃ rok, t.get? ((acquireRun env t).2 - 1) = some (.taken l rok) ∧
        ¬(IsStale env l = true ∧ rok = true)) := by
  induction t with
  | nil =>
    refine ⟨Nat.le_refl 0, fun _ => rfl, fun i hi => absurd hi (by simp [acquireRun]), ?_⟩
    intro l hl
    exact absurd hl (by simp [acquireRun])
  | cons x rest ih =>
    match x with
    | .free =>
      refine ⟨by simp [acquireRun], by simp [acquireRun], ?_, ?_⟩
      · intro i hi
        simp only [acquireRun] at hi
        omega
      · intro l hl
        exact absurd hl (by simp [acquireRun])
    | .takenUnreadable =>
      refine ⟨by simp [acquireRun], by simp [acquireRun], ?_, ?_⟩
      · intro i hi
        simp only [acquireRun] at hi
        omega
      · intro l hl
        exact absurd hl (by simp [acquireRun])
    | .taken l rok =>
      obtain ⟨ihb, ihz, ihpre, ihconf⟩ := ih
      by_cases hsr : (IsStale env l && rok) = true
      · have hrun : acquireRun env (.taken l rok :: rest) =
            ((acquireRun env rest).1, (acquireRun env rest).2 + 1) := by
          simp only [acquireRun, if_pos hsr]
        have hst : IsStale env l = true ∧ rok = true := by
          simpa [Bool.and_eq_true] using hsr
        refine ⟨?_, ?_, ?_, ?_⟩
        · rw [hrun]
          simpa using Nat.succ_le_succ ihb
        · rw [hrun]
          intro h
          exact absurd h (Nat.succ_ne_zero _)
        · rw [hrun]
          intro i hi
          cases i with
          | zero => exact ⟨l, by simp [hst.2], hst.1⟩
          | succ i' =>
            obtain ⟨l', hget, hstale⟩ := ihpre i' (by omega)
            exact ⟨l', by simpa using hget, hstale⟩
        · rw [hrun]
          intro l' hl'
          have hz : (acquireRun env rest).2 ≠ 0 := by
            intro h0
            rw [ihz h0] at hl'
            exact AcqRunResult.noConfusion hl'
          obtain ⟨rok', hget, hnr⟩ := ihconf l' hl'
          refine ⟨rok', ?_, hnr⟩
          rw [Nat.add_sub_cancel,
            (Nat.succ_pred_eq_of_pos (Nat.pos_of_ne_zero hz)).symm]
          simpa using hget
      · have hrun : acquireRun env (.taken l rok :: rest) =
            (.conflict l, 1) := by
          simp only [acquireRun, if_neg hsr]
        refine ⟨by rw [hrun]; simp, by rw [hrun]; simp, ?_, ?_⟩
        · intro i hi
          rw [hrun] at hi
          exact absurd hi (by omega)
        · intro l' hl'
          rw [hrun] at hl'
          obtain rfl : l = l' := by
            simpa using AcqRunResult.conflict.inj (by simpa using hl')
          refine ⟨rok, by rw [hrun]; simp, ?_⟩
          intro hcon
          exact hsr (by simp [hcon.1, hcon.2])

/-- C4 amended witness: a successful stale reclaim followed by a collision
with a live lock surfaces that lock as the conflict, at the last consumed
attempt. -/
theorem C4_reclaim_recursion_witness :
    ∃ rok, traceC4Wfix.get? ((acquireRun envC4fix traceC4Wfix).2 - 1) =
        some (.taken lockLiveFix rok) ∧
      ¬(IsStale envC4fix lockLiveFix = true ∧ rok = true) :=
  (C4_reclaim_recursion envC4fix traceC4Wfix).2.2.2 lockLiveFix (by decide)

/-- C7: `CheckOrAcquire` is idempotent for the holding owner — when `Check`
finds a lock owned by the caller, the call returns that very lock with no
error and no store change; and starting from a protected-but-free state a
first call creates exactly one lock record and returns it, after which a
second call by the same owner returns the same lock and leaves the store
unchanged (no duplicate record). -/
theorem C7_checkOrAcquire_idempotent (env : Env)
    (file agentID agentName operation : String) (st : Store) :
    (∀ l, Check env file st = (some l, true) → l.agentID = agentID →
      CheckOrAcquire env file agentID agentName operation st = (.ok l, st)) ∧
    (∀ pat, Check env file st = (none, true) →
      resolvePattern env.patterns file = some pat →
      ReadLock st pat = none →
      ∃ l, CheckOrAcquire env file agentID agentName operation st =
          (.ok l, insertStore st (lockKey pat) l) ∧
        l.agentID = agentID ∧ l.resource = pat ∧
        CheckOrAcquire env file agentID agentName operation
            (insertStore st (lockKey pat) l) =
          (.ok l, insertStore st (lockKey pat) l)) := by
  constructor
  · intro l hc heq
    unfold CheckOrAcquire
    rw [hc]
    simp [heq]
  · intro pat hc hres hfree
    have hacq : Acquire env pat agentID agentName operation 0 st =
        (.ok, insertStore st (lockKey pat)
          ⟨pat, agentID, agentName, operation, env.now, env.defaultTTL, env.pid⟩) := by
      simpa using Acquire_free env pat agentID agentName operation 0 st hfree
    have hr : ReadLock (insertStore st (lockKey pat)
        ⟨pat, agentID, agentName, operation, env.now, env.defaultTTL, env.pid⟩) pat =
        some ⟨pat, agentID, agentName, operation, env.now, env.defaultTTL, env.pid⟩ := by
      rw [ReadLock]
      exact lookupStore_insertStore_self st (lockKey pat) _
    refine ⟨⟨pat, agentID, agentName, operation, env.now, env.defaultTTL, env.pid⟩,
      ?_, rfl, rfl, ?_⟩
    · unfold CheckOrAcquire
      rw [hc]
      simp only [hres, Option.getD_some, hacq, hr]
    · have hc2 : Check env file (insertStore st (lockKey pat)
          ⟨pat, agentID, agentName, operation, env.now, env.defaultTTL, env.pid⟩) =
          (some ⟨pat, agentID, agentName, operation, env.now, env.defaultTTL,
            env.pid⟩, true) := by
        unfold Check
        rw [hres]
        simp [listLocks, insertStore]
      unfold CheckOrAcquire
      rw [hc2]
      simp

/-- C7 witness: with `db/**/*` protected and the store empty, two sequential
`CheckOrAcquire` calls by agent A both succeed, return the same lock, and
leave exactly the one record created by the first call. -/
theorem C7_checkOrAcquire_idempotent_witness :
    ∃ l, CheckOrAcquire envC10fix "db/schema/users.sql" "A" "" "edit" [] =
        (.ok l, insertStore [] (lockKey "db/**/*") l) ∧
      l.agentID = "A" ∧ l.resource = "db/**/*" ∧
      CheckOrAcquire envC10fix "db/schema/users.sql" "A" "" "edit"
          (insertStore [] (lockKey "db/**/*") l) =
        (.ok l, insertStore [] (lockKey "db/**/*") l) :=
  (C7_checkOrAcquire_idempotent envC10fix "db/schema/users.sql" "A" "" "edit" []).2
    "db/**/*" (by decide) (by decide) rfl

/-- Invariant of the `ReleaseAll` loop: with the yet-unprocessed snapshot
suffix sitting behind an already-processed part that holds no locks of the
releasing agent, the loop releases exactly the suffix locks owned by the
agent and collects no errors. -/
theorem releaseAll_go (A : String) (suffix : Store) :
    ∀ (kept : Store) (errs : List String),
    (∀ e ∈ kept ++ suffix, e.1 = lockKey e.2.resource) →
    ((kept ++ suffix).map Prod.fst).Nodup →
    (∀ e ∈ kept, ¬ e.2.agentID = A) →
    (listLocks suffix).foldl (releaseAllStep A) (errs, kept ++ suffix) =
      (errs, kept ++ suffix.filter (fun e => !(e.2.agentID == A))) := by
  induction suffix with
  | nil =>
    intro kept errs _ _ _
    simp [listLocks]
  | cons e s ih =>
    intro kept errs h1 h2 h3
    have hkey : e.1 = lockKey e.2.resource := h1 e (by simp)
    have h2' : (kept.map Prod.fst).Nodup ∧ ((e :: s).map Prod.fst).Nodup ∧
        (kept.map Prod.fst).Disjoint ((e :: s).map Prod.fst) := by
      rw [List.map_append] at h2
      exact List.nodup_append.mp h2
    have hkept_ne : ∀ x ∈ kept, ¬ x.1 = e.1 := by
      intro x hx hxe
      exact h2'.2.2 (List.mem_map_of_mem Prod.fst hx) (by simp [hxe])
    have hs_ne : ∀ x ∈ s, ¬ x.1 = e.1 := by
      intro x hx hxe
      have hnd := h2'.2.1
      rw [List.map_cons, List.nodup_cons] at hnd
      exact hnd.1 (hxe ▸ List.mem_map_of_mem Prod.fst hx)
    rw [show listLocks (e :: s) = e.2 :: listLocks s from rfl, List.foldl_cons]
    by_cases hA : e.2.agentID = A
    · have hlook : ReadLock (kept ++ e :: s) e.2.resource = some e.2 := by
        rw [ReadLock, ← hkey, lookupStore_append_right kept _ _ hkept_ne]
        simp [lookupStore]
      have hrel : Release e.2.resource A (kept ++ e :: s) = (.ok, kept ++ s) := by
        simp only [Release, hlook, if_pos hA]
        rw [← hkey, eraseStore_append, eraseStore_of_forall_ne kept e.1 hkept_ne,
          show eraseStore (e :: s) e.1 = eraseStore s e.1 from by simp [eraseStore],
          eraseStore_of_forall_ne s e.1 hs_ne]
      rw [show releaseAllStep A (errs, kept ++ e :: s) e.2 = (errs, kept ++ s) from by
        simp only [releaseAllStep, if_pos hA, hrel]]
      have hres := ih kept errs
        (fun x hx => h1 x (by
          rcases List.mem_append.mp hx with h | h
          · exact List.mem_append.mpr (Or.inl h)
          · exact List.mem_append.mpr (Or.inr (List.mem_cons_of_mem e h))))
        (by
          have hsub : List.Sublist (kept ++ s) (kept ++ e :: s) :=
            (List.append_sublist_append_left kept).mpr (List.sublist_cons_self e s)
          exact (hsub.map Prod.fst).nodup h2)
        h3
      rw [hres, List.filter_cons_of_neg (by simp [hA])]
    · rw [show releaseAllStep A (errs, kept ++ e :: s) e.2 = (errs, kept ++ e :: s) from by
        simp [releaseAllStep, hA]]
      have hassoc : kept ++ e :: s = (kept ++ [e]) ++ s := by simp
      rw [hassoc]
      have hres := ih (kept ++ [e]) errs
        (by rw [← hassoc]; exact h1)
        (by rw [← hassoc]; exact h2)
        (by
          intro x hx
          rcases List.mem_append.mp hx with h | h
          · exact h3 x h
          · obtain rfl : x = e := by simpa using h
            exact hA)
      rw [hres, List.filter_cons_of_pos (by simp [hA])]
      simp

/-- C8: on every well-formed store, `ReleaseAll` removes exactly the locks
owned by the releasing agent, leaves every other agent's locks in place and
reports no errors; and the loop aggregates per-lock failures instead of
aborting — on an ill-formed store where releasing A's first lock hits B's
record, the error is collected, the loop continues, and A's remaining lock is
still released. -/
theorem C8_releaseAll_scoping :
    (∀ (A : String) (st : Store), WFStore st →
      ReleaseAll A st = ([], st.filter (fun e => !(e.2.agentID == A)))) ∧
    ReleaseAll "A" stBadFix =
      (["B"], [("zz", lockBadA1Fix), (lockKey "r1", lockBadB1Fix)]) := by
  constructor
  · intro A st h
    have hgo := releaseAll_go A st [] []
      (by simpa using h.1) (by simpa using h.2) (by simp)
    simpa [ReleaseAll] using hgo
  · decide

/-- C8 witness: with `r1`, `r2` owned by A and `r3` owned by B, releasing all
of A's locks removes exactly `r1` and `r2` and leaves `r3` held by B, with no
errors. -/
theorem C8_releaseAll_scoping_witness :
    ReleaseAll "A" stWFix =
      ([], [(lockKey "r3", ⟨"r3", "B", "", "", 0, 300, 2⟩)]) := by
  have h := C8_releaseAll_scoping.1 "A" stWFix
    (by unfold WFStore; exact ⟨by decide, by decide⟩)
  rw [h]
  decide

end Coord
